import Mathlib

/-!
Verification of the bijection/distribution composition core of the flowjax
repository against its natural-language specification.

The development shallowly embeds the code of `src/flowjax/distributions.py`
and `src/flowjax/bijections/affine.py`.  Array *shapes* are lists of
naturals, array *values* are functions `Nat → ℝ` (the flattened elementwise
view used by the elementwise bijections in the source), random keys are
pairs of naturals (the `(2,)`-shaped uint32 key arrays of the substrate).
Code of the repository that is referenced but not present under `src/`
(`Chain`/`merge_chains`, `merge_cond_shapes`, the `SoftPlus` positivity map
and the reparameterization wrapper, and the substrate PRNG primitives) is
modelled from the specification; each such definition carries a doc comment
starting with `Modelled from the spec:`.
-/

namespace Flowjax

/-- Array shapes, as in the `tuple[int, ...]` `shape` attributes of the source. -/
abbrev Shape := List Nat

/-- A single unbatched random key: the substrate's `(2,)`-shaped uint32 key array. -/
abbrev Key := Nat × Nat

/-- Modelled from the spec: the substrate's splittable-PRNG split primitive
(`jr.split(key, n)`), a deterministic order-stable derivation of `n` fresh
sub-keys from one key.  The concrete mixing function is a model artifact;
the claims depend only on determinism and on the count of derived keys. -/
def jrSplit (key : Key) (n : Nat) : List Key :=
  (List.range n).map (fun i => (key.1 * n + i, key.2 + i))

/-- An array of unbatched keys: `shape` always ends in the trailing `(2,)`
axis, `data` lists the keys batch-element by batch-element. -/
structure KeyArray where
  shape : Shape
  data : List Key

/-- Models `jnp.reshape(jr.split(key, key_size), (*key_shape, 2))` from
`_get_sample_keys` (distributions.py line 238): reshaping fails (the code
raises) unless the number of keys equals the size of the target batch shape. -/
def reshapeKeys (ks : List Key) (keyShape : Shape) : Option KeyArray :=
  if ks.length = keyShape.prod then some ⟨keyShape ++ [2], ks⟩ else none

/-- Models `AbstractDistribution._get_sample_keys` (distributions.py lines
231-238).  `condNdim` is `self.cond_ndim` (the length of `cond_shape`, or
`none` for unconditional distributions); `condArg` is the shape of the
condition argument.  The leading condition shape is
`condition.shape[: -self.cond_ndim or None]`, which for `cond_ndim = 0`
keeps the full condition shape (matching the Python `or None` idiom). -/
def getSampleKeys (condNdim : Option Nat) (key : Key) (sampleShape : Shape)
    (condArg : Option Shape) : Option KeyArray :=
  let leading : Shape :=
    match condNdim, condArg with
    | some n, some ca => ca.take (ca.length - n)
    | _, _ => []
  let keyShape := sampleShape ++ leading
  let keySize := max 1 keyShape.prod
  reshapeKeys (jrSplit key keySize) keyShape

/-- Right-aligned pairwise numpy broadcasting on reversed shapes. -/
def bcastRev : List Nat → List Nat → Option (List Nat)
  | [], t => some t
  | s, [] => some s
  | a :: s, b :: t =>
    match bcastRev s t with
    | none => none
    | some r =>
      if a = b then some (a :: r)
      else if a = 1 then some (b :: r)
      else if b = 1 then some (a :: r)
      else none

/-- Standard numpy broadcasting of two shapes, as performed on the leading
(batch) dimensions by the substrate's vectorizing map. -/
def broadcastShapes (s t : Shape) : Option Shape :=
  (bcastRev s.reverse t.reverse).map List.reverse

/-- Strips a declared trailing core shape from an argument shape, returning
the leading (batch) dimensions; fails (the shape-checking adapter of
`_vectorize` raises) when the trailing dimensions do not match the core. -/
def stripCore (arg core : Shape) : Option Shape :=
  if core.length ≤ arg.length ∧ arg.drop (arg.length - core.length) = core then
    some (arg.take (arg.length - core.length))
  else none

/-- The three unbatched primitives dispatched through `_vectorize`
(distributions.py lines 196-229), keyed in the source by `method.__name__`. -/
inductive MethodKind where
  | sampleAndLogProb : MethodKind
  | sample : MethodKind
  | logProb : MethodKind

/-- Models the `in_shapes` table of `_vectorize` (distributions.py lines
199-204): the unbatched core shape of each argument, with `(2, )`
corresponding to key arrays and the condition core appended only for
conditional distributions. -/
def vectorizeInShapes (shape : Shape) (cond_shape : Option Shape) :
    MethodKind → List Shape :=
  let maybeCond : List Shape :=
    match cond_shape with
    | none => []
    | some c => [c]
  fun k =>
    match k with
    | .sampleAndLogProb => [2] :: maybeCond
    | .sample => [2] :: maybeCond
    | .logProb => shape :: maybeCond

/-- Models the `out_shapes` table of `_vectorize` (distributions.py lines
205-209). -/
def vectorizeOutShapes (shape : Shape) : MethodKind → List Shape
  | .sampleAndLogProb => [shape, []]
  | .sample => [shape]
  | .logProb => [[]]

/-- Models line 228 of distributions.py:
`ex = frozenset([1]) if self.cond_shape is None else frozenset()` — the set
of positional argument indices excluded from broadcasting by the substrate's
vectorizing map. -/
def vectorizeExcluded (cond_shape : Option Shape) : Finset Nat :=
  if cond_shape = none then {1} else ∅

/-- Positional index of the key argument at the `_vectorize` call sites for
the sampling primitives: `self._vectorize(self._sample)(keys, condition)`
(distributions.py line 153) passes the key array first. -/
def keyArgPosition : Nat := 0

/-- Positional index of the condition argument at every `_vectorize` call
site (distributions.py lines 77, 153, 175): the condition is always the
second argument. -/
def conditionArgPosition : Nat := 1

/-- Strips each argument's declared core shape, failing if any trailing
dimensions mismatch. -/
def stripAll : List Shape → List Shape → Option (List Shape)
  | [], [] => some []
  | a :: rest, c :: cores =>
    match stripCore a c, stripAll rest cores with
    | some l, some r => some (l :: r)
    | _, _ => none
  | _, _ => none

/-- Broadcasts a list of leading-dimension shapes together. -/
def broadcastMany : List Shape → Option Shape
  | [] => some []
  | s :: rest =>
    match broadcastMany rest with
    | none => none
    | some r => broadcastShapes s r

/-- Shape-level semantics of one call through the substrate's vectorizing
map with a generalized-broadcasting signature: strip each argument's core
shape, broadcast the leading dimensions, and append the output core shape. -/
def vectorizeCallShape (inCores : List Shape) (outCore : Shape)
    (argShapes : List Shape) : Option Shape :=
  match stripAll argShapes inCores with
  | none => none
  | some leads =>
    match broadcastMany leads with
    | none => none
    | some lead => some (lead ++ outCore)

/-- Shape-level semantics of `AbstractDistribution.sample` (distributions.py
lines 150-153): `_argcheck_and_cast_condition` (lines 187-194, a condition
must be given exactly when `cond_shape` is not `None`), then
`_get_sample_keys` (lines 231-238), then the vectorized dispatch of
`_sample` (lines 196-229).  Returns `none` where the code raises; under the
vectorize excluded set, the `None` condition of an unconditional
distribution does not participate in broadcasting. -/
def sampleShapeSem (shape : Shape) (cond_shape : Option Shape) (key : Key)
    (sampleShape : Shape) (condArg : Option Shape) : Option Shape :=
  match cond_shape, condArg with
  | none, some _ => none
  | some _, none => none
  | none, none =>
    match getSampleKeys none key sampleShape none with
    | none => none
    | some ka => vectorizeCallShape (vectorizeInShapes shape none .sample) shape [ka.shape]
  | some ccs, some ca =>
    match getSampleKeys (some ccs.length) key sampleShape (some ca) with
    | none => none
    | some ka =>
      vectorizeCallShape (vectorizeInShapes shape (some ccs) .sample) shape [ka.shape, ca]

/-- Array values, as the flattened elementwise view `index → ℝ` of a jax
array; the elementwise arithmetic of the source maps pointwise onto this
representation, with the shape carried separately. -/
abbrev Arr := Nat → ℝ

/-- A shaped array value (used where the source inspects `.shape` of a data
argument, as in `SpecializeCondition.__init__`). -/
structure NdArray where
  shape : Shape
  data : Arr

/-- Modelled from the spec: `merge_cond_shapes` from `flowjax.utils` (not
under `src/`) — merging an optional conditioning-shape contract across
composed objects: the unique non-`None` value (asserted pairwise-equal when
both are present), or `None` when all are `None`. -/
def mergeCondShapes (a b : Option Shape) : Option Shape :=
  match a with
  | none => b
  | some s => some s

/-- Bijections: a primitive bijection carries its event `shape`, optional
`cond_shape` and the four operations of the `AbstractBijection` contract
(`transform`, `transform_and_log_det`, `inverse`, `inverse_and_log_det`);
`chain` is the sequential-composition combinator.  Modelled from the spec
for the `Chain` constructor (`flowjax/bijections/chain.py` is not under
`src/`): a `Chain` holds an ordered sequence of child bijections applied
left-to-right by `transform`. -/
inductive Bij where
  | prim (shape : Shape) (cond_shape : Option Shape)
      (tf : Arr → Option Arr → Arr)
      (tfld : Arr → Option Arr → Arr × ℝ)
      (inv : Arr → Option Arr → Arr)
      (invld : Arr → Option Arr → Arr × ℝ) : Bij
  | chain (bijections : List Bij) : Bij

mutual

/-- Forward transformation.  Modelled from the spec for chains: `transform`
applies children left-to-right on x. -/
def Bij.transform : Bij → Arr → Option Arr → Arr
  | .prim _ _ tf _ _ _, x, c => tf x c
  | .chain bs, x, c => transformList bs x c

/-- Applies the transforms of a list of bijections left-to-right. -/
def transformList : List Bij → Arr → Option Arr → Arr
  | [], x, _ => x
  | b :: rest, x, c => transformList rest (Bij.transform b x c) c

end

mutual

/-- Inverse transformation.  Modelled from the spec for chains: `inverse`
applies children in reverse order. -/
def Bij.inverse : Bij → Arr → Option Arr → Arr
  | .prim _ _ _ _ inv _, y, c => inv y c
  | .chain bs, y, c => inverseList bs y c

/-- Applies the inverses of a list of bijections in reverse order: the
inverse of the last bijection is applied to the input first. -/
def inverseList : List Bij → Arr → Option Arr → Arr
  | [], y, _ => y
  | b :: rest, y, c => Bij.inverse b (inverseList rest y c) c

end

mutual

/-- Forward transformation paired with the forward log-determinant.
Modelled from the spec for chains: the per-step log-determinants are
summed. -/
def Bij.transform_and_log_det : Bij → Arr → Option Arr → Arr × ℝ
  | .prim _ _ _ tfld _ _, x, c => tfld x c
  | .chain bs, x, c => transformAndLogDetList bs x c

/-- Left-to-right composition of `transform_and_log_det` over a list of
bijections, accumulating the log-determinants. -/
def transformAndLogDetList : List Bij → Arr → Option Arr → Arr × ℝ
  | [], x, _ => (x, 0)
  | b :: rest, x, c =>
    let p := Bij.transform_and_log_det b x c
    let q := transformAndLogDetList rest p.1 c
    (q.1, p.2 + q.2)

end

mutual

/-- Inverse transformation paired with the inverse log-determinant.
Modelled from the spec for chains: the per-step log-determinants are
summed, with the inverse of the last bijection applied first. -/
def Bij.inverse_and_log_det : Bij → Arr → Option Arr → Arr × ℝ
  | .prim _ _ _ _ _ invld, y, c => invld y c
  | .chain bs, y, c => inverseAndLogDetList bs y c

/-- Reverse-order composition of `inverse_and_log_det` over a list of
bijections, accumulating the log-determinants. -/
def inverseAndLogDetList : List Bij → Arr → Option Arr → Arr × ℝ
  | [], y, _ => (y, 0)
  | b :: rest, y, c =>
    let p := inverseAndLogDetList rest y c
    let q := Bij.inverse_and_log_det b p.1 c
    (q.1, p.2 + q.2)

end

mutual

/-- The `cond_shape` attribute of a bijection.  Modelled from the spec for
chains: the merge (pairwise-compatible-or-`None`) across children. -/
def Bij.cond_shape : Bij → Option Shape
  | .prim _ cs _ _ _ _ => cs
  | .chain bs => condShapeList bs

/-- Merges the `cond_shape` attributes of a list of bijections. -/
def condShapeList : List Bij → Option Shape
  | [] => none
  | b :: rest => mergeCondShapes (Bij.cond_shape b) (condShapeList rest)

end

/-- The event `shape` attribute of a bijection; the children of a chain all
share one shape, read off the first child. -/
def Bij.shape : Bij → Shape
  | .prim s _ _ _ _ _ => s
  | .chain [] => []
  | .chain (b :: _) => Bij.shape b

/-- Splices the children of any direct `chain` child inline, keeping other
children as they are. -/
def splice : List Bij → List Bij
  | [] => []
  | .chain inner :: rest => inner ++ splice rest
  | b :: rest => b :: splice rest

/-- Modelled from the spec: `Chain.merge_chains()` (from
`flowjax/bijections/chain.py`, not under `src/`) — flattens any nested
`Chain` children one level, producing a single flat sequence; on any other
bijection it is the identity. -/
def mergeChains : Bij → Bij
  | .chain bs => .chain (splice bs)
  | b => b

/-- Distributions: a `base` node models any non-transformed
`AbstractDistribution` through its three unbatched primitives (`_log_prob`,
`_sample`, `_sample_and_log_prob`) together with its `shape` and
`cond_shape` attributes; a `transformed` node models `Transformed` (and any
`AbstractTransformed`) through its `base_dist` and `bijection` fields. -/
inductive Dist where
  | base (shape : Shape) (cond_shape : Option Shape)
      (lp : Arr → Option Arr → ℝ)
      (sp : Key → Option Arr → Arr)
      (slp : Key → Option Arr → Arr × ℝ) : Dist
  | transformed (base_dist : Dist) (bijection : Bij) : Dist

/-- The `shape` property: `AbstractTransformed.shape` returns
`self.base_dist.shape` (distributions.py lines 326-328). -/
def Dist.shape : Dist → Shape
  | .base s _ _ _ _ => s
  | .transformed bd _ => Dist.shape bd

/-- The `cond_shape` property: `AbstractTransformed.cond_shape` returns
`merge_cond_shapes((self.bijection.cond_shape, self.base_dist.cond_shape))`
(distributions.py lines 330-332). -/
def Dist.cond_shape : Dist → Option Shape
  | .base _ cs _ _ _ => cs
  | .transformed bd bij => mergeCondShapes (Bij.cond_shape bij) (Dist.cond_shape bd)

/-- Whether a distribution is an `AbstractTransformed` instance. -/
def Dist.isTransformed : Dist → Bool
  | .transformed _ _ => true
  | _ => false

/-- The unbatched `_log_prob` primitive.  For a transformed node this is
`AbstractTransformed._log_prob` (distributions.py lines 277-280):
`z, log_abs_det = self.bijection.inverse_and_log_det(x, condition)`;
`p_z = self.base_dist._log_prob(z, condition)`; `return p_z + log_abs_det`. -/
def Dist.logProb : Dist → Arr → Option Arr → ℝ
  | .base _ _ lp _ _, x, c => lp x c
  | .transformed bd bij, x, c =>
    let p := Bij.inverse_and_log_det bij x c
    Dist.logProb bd p.1 c + p.2

/-- The unbatched `_sample` primitive.  For a transformed node this is
`AbstractTransformed._sample` (distributions.py lines 282-284):
`base_sample = self.base_dist._sample(key, condition)`;
`return self.bijection.transform(base_sample, condition)`. -/
def Dist.sample : Dist → Key → Option Arr → Arr
  | .base _ _ _ sp _, k, c => sp k c
  | .transformed bd bij, k, c => Bij.transform bij (Dist.sample bd k c) c

/-- The unbatched `_sample_and_log_prob` primitive.  For a transformed node
this is `AbstractTransformed._sample_and_log_prob` (distributions.py lines
286-293), which uses only the forward `transform_and_log_det` of the
bijection — the inverse bijection is never invoked:
`base_sample, log_prob_base = self.base_dist._sample_and_log_prob(key, condition)`;
`sample, forward_log_dets = self.bijection.transform_and_log_det(base_sample, condition)`;
`return sample, log_prob_base - forward_log_dets`. -/
def Dist.sampleAndLogProb : Dist → Key → Option Arr → Arr × ℝ
  | .base _ _ _ _ slp, k, c => slp k c
  | .transformed bd bij, k, c =>
    let p := Dist.sampleAndLogProb bd k c
    let q := Bij.transform_and_log_det bij p.1 c
    (q.1, p.2 - q.2)

/-- Python error kinds raised by the modelled code paths. -/
inductive PyError where
  | valueError : PyError
  | typeError : PyError
  | attributeError : PyError

/-- Models construction of `Transformed(base_dist, bijection)`
(distributions.py lines 335-371) together with
`AbstractTransformed.__check_init__` (lines 295-307), which raises
`ValueError` exactly when the base distribution and the bijection are both
conditional with mismatched `cond_shape` attributes. -/
def mkTransformed (bd : Dist) (bij : Bij) : Except PyError Dist :=
  match Dist.cond_shape bd, Bij.cond_shape bij with
  | some s, some t =>
    if s = t then .ok (.transformed bd bij) else .error .valueError
  | _, _ => .ok (.transformed bd bij)

/-- The unwinding loop of `AbstractTransformed.merge_transforms`
(distributions.py lines 318-322): collects the bijections of a nest of
transformed distributions outer-to-inner and returns the innermost
non-transformed base distribution. -/
def unwind : Dist → List Bij × Dist
  | .transformed bd bij => (bij :: (unwind bd).1, (unwind bd).2)
  | d => ([], d)

/-- Models `AbstractTransformed.merge_transforms` (distributions.py lines
309-324): if the base distribution is not itself transformed, return `self`
unchanged; otherwise unwind the nested bases collecting the bijections
outer-to-inner, reverse them to inner-to-outer application order, build one
`Chain`, flatten it via `merge_chains`, and wrap the innermost base in a new
`Transformed`. -/
def mergeTransforms : Dist → Dist
  | .transformed bd bij =>
    match bd with
    | .base sh cs lp sp slp => .transformed (.base sh cs lp sp slp) bij
    | .transformed bd' bij' =>
      .transformed (unwind (.transformed (.transformed bd' bij') bij)).2
        (mergeChains (.chain ((unwind (.transformed (.transformed bd' bij') bij)).1.reverse)))
  | d => d

/-- Models `AbstractStandardDistribution` (distributions.py lines 241-258):
a non-transformed distribution whose `_sample_and_log_prob` is implemented
by calling `_sample` and `_log_prob` separately. -/
def standardDist (shape : Shape) (cond_shape : Option Shape)
    (lp : Arr → Option Arr → ℝ) (sp : Key → Option Arr → Arr) : Dist :=
  .base shape cond_shape lp sp (fun k c => (sp k c, lp (sp k c) c))

/-- Models the `Loc` bijection (`y = x + c`, bijections/affine.py lines
58-83): elementwise shift with identically zero log-determinant. -/
def locBij (loc : Arr) (shape : Shape) : Bij :=
  .prim shape none
    (fun x _ => fun i => x i + loc i)
    (fun x _ => (fun i => x i + loc i, 0))
    (fun y _ => fun i => y i - loc i)
    (fun y _ => (fun i => y i - loc i, 0))

/-- Modelled from the spec: the `SoftPlus` positivity map
(`flowjax/bijections/softplus.py`, not under `src/`) — the fixed monotonic
positivity-enforcing map used to reparameterize scale parameters. -/
noncomputable def softplus (x : ℝ) : ℝ := Real.log (1 + Real.exp x)

/-- Modelled from the spec: the inverse of the `SoftPlus` positivity map,
used to store a positive effective value as a raw unconstrained value. -/
noncomputable def softplusInv (y : ℝ) : ℝ := Real.log (Real.exp y - 1)

/-- The parameters of an `Affine` bijection: the location array, the raw
(unconstrained) scale array stored by the reparameterization wrapper, and
the event shape. -/
structure AffineParams where
  loc : Arr
  rawScale : Arr
  shape : Shape

/-- Models `Affine.__init__` (bijections/affine.py lines 34-43): the scale
is stored through `wrappers.BijectionReparam(scale, SoftPlus())`, i.e. as
the raw value obtained by inverting the positivity map (modelled from the
spec, `flowjax/wrappers.py` not being under `src/`). -/
noncomputable def mkAffine (loc scale : Arr) (shape : Shape) : AffineParams :=
  ⟨loc, fun i => softplusInv (scale i), shape⟩

/-- Reading the `scale` field unwraps the reparameterization: the stored raw
value is passed through the fixed positivity map (modelled from the spec). -/
noncomputable def AffineParams.scale (a : AffineParams) : Arr :=
  fun i => softplus (a.rawScale i)

/-- Models `Affine.transform` (bijections/affine.py line 45-46):
`x * self.scale + self.loc`, elementwise. -/
noncomputable def affineTransform (a : AffineParams) (x : Arr) : Arr :=
  fun i => x i * a.scale i + a.loc i

/-- The forward log-determinant of `Affine`:
`jnp.log(jnp.abs(self.scale)).sum()`, the sum running over the
`shape.prod` elements of the event. -/
noncomputable def affineLogDet (a : AffineParams) : ℝ :=
  ∑ i in Finset.range a.shape.prod, Real.log |a.scale i|

/-- Models `Affine.transform_and_log_det` (bijections/affine.py lines
48-49). -/
noncomputable def affineTransformAndLogDet (a : AffineParams) (x : Arr) : Arr × ℝ :=
  (affineTransform a x, affineLogDet a)

/-- Models `Affine.inverse` (bijections/affine.py lines 51-52):
`(y - self.loc) / self.scale`, elementwise. -/
noncomputable def affineInverse (a : AffineParams) (y : Arr) : Arr :=
  fun i => (y i - a.loc i) / a.scale i

/-- Models `Affine.inverse_and_log_det` (bijections/affine.py lines 54-55). -/
noncomputable def affineInverseAndLogDet (a : AffineParams) (y : Arr) : Arr × ℝ :=
  (affineInverse a y, -affineLogDet a)

/-- The `Affine` bijection packaged as a `Bij` value (`cond_shape` is
`None`, bijections/affine.py line 30). -/
noncomputable def affineBij (a : AffineParams) : Bij :=
  .prim a.shape none
    (fun x _ => affineTransform a x)
    (fun x _ => affineTransformAndLogDet a x)
    (fun y _ => affineInverse a y)
    (fun y _ => affineInverseAndLogDet a y)

/-- The fields assigned by `SpecializeCondition.__init__` (distributions.py
lines 663-666), each `none` until its assignment statement has run. -/
structure SpecCondFields where
  dist : Option Dist
  conditionField : Option NdArray
  shape : Option Shape
  stopGradient : Option Bool

/-- Reading an attribute of a partially initialized object: a field that has
not been assigned yet raises `AttributeError`. -/
def readField {α : Type} (f : Option α) : Except PyError α :=
  match f with
  | none => .error .attributeError
  | some v => .ok v

/-- Models `SpecializeCondition.__init__` (distributions.py lines 642-666).
The statements run in source order: the condition is cast (line 657), then
`self.dist.cond_shape` is read (line 658) — but the `dist` field is only
assigned at line 663, so at line 658 it is still unassigned.  The modelled
validation and assignments after that point mirror lines 658-666. -/
def specializeConditionInit (dist : Dist) (condition : NdArray)
    (stopGrad : Bool) : Except PyError SpecCondFields :=
  let distFieldBeforeAssignment : Option Dist := none
  match readField distFieldBeforeAssignment with
  | .error e => .error e
  | .ok distField =>
    if Dist.cond_shape distField ≠ some condition.shape then .error .valueError
    else .ok ⟨some dist, some condition, some (Dist.shape dist), some stopGrad⟩

/-- A jax floating-point scalar, as far as the NaN-remapping policy of
`log_prob` is concerned: NaN, the two infinities, or a finite real. -/
inductive JaxFloat where
  | nan : JaxFloat
  | neginf : JaxFloat
  | posinf : JaxFloat
  | finite (val : ℝ) : JaxFloat

/-- The `jnp.isnan` predicate on a scalar. -/
def JaxFloat.isnan : JaxFloat → Bool
  | .nan => true
  | _ => false

/-- Models line 78 of distributions.py, the final step of the public
`AbstractDistribution.log_prob`:
`return jnp.where(jnp.isnan(lps), -jnp.inf, lps)` applied to the batch of
vectorized `_log_prob` results. -/
def logProbNanRemap (lps : List JaxFloat) : List JaxFloat :=
  lps.map (fun l => if l.isnan then JaxFloat.neginf else l)

/-- The constant-one array, used as a concrete evaluation point. -/
def arrOne : Arr := fun _ => 1

/-- A concrete non-transformed distribution (scalar shape, unconditional)
with simple primitives, built through the `AbstractStandardDistribution`
pattern. -/
def demoBase : Dist :=
  standardDist [] none (fun x _ => x 0) (fun k _ => fun _ => (k.1 : ℝ))

/-- A concrete inner `Loc` bijection (shift by 2). -/
def demoInnerLoc : Bij := locBij (fun _ => 2) []

/-- A concrete outer `Loc` bijection (shift by 3). -/
def demoOuterLoc : Bij := locBij (fun _ => 3) []

/-- A concrete transformed distribution, used as the nested base of a
doubly transformed distribution. -/
def demoNested : Dist := Dist.transformed demoBase demoInnerLoc

/-- The concrete `Affine(loc=2.0, scale=3.0)` bijection parameters of the
spec's concrete scenario (scalar event shape). -/
noncomputable def affine23 : AffineParams :=
  mkAffine (fun _ => 2) (fun _ => 3) []

theorem jrSplit_length (key : Key) (n : Nat) : (jrSplit key n).length = n := by
  simp [jrSplit]

/-- Change of variables for the unbatched density primitive of every
transformed distribution. -/
theorem C1_log_prob_change_of_variables (bd : Dist) (bij : Bij) (x : Arr)
    (c : Option Arr) :
    Dist.logProb (Dist.transformed bd bij) x c
      = Dist.logProb bd (Bij.inverse_and_log_det bij x c).1 c
        + (Bij.inverse_and_log_det bij x c).2 := rfl

/-- Claim C2: for a transformed distribution whose bijection satisfies the
pair/log-determinant consistency contract and the inverse law, and whose
base distribution's `_sample_and_log_prob` agrees with `_sample` followed by
`_log_prob`, the derived `_sample_and_log_prob` returns the `_sample` result
paired with its `_log_prob`, and is computed as
`(x, log_pz - fwd_logdet)` using only the forward bijection. -/
theorem C2_sample_and_log_prob_consistency (bd : Dist) (bij : Bij) (k : Key)
    (c : Option Arr)
    (hpair : ∀ z, (Bij.transform_and_log_det bij z c).1 = Bij.transform bij z c)
    (hld : ∀ z, (Bij.transform_and_log_det bij z c).2
      = -(Bij.inverse_and_log_det bij (Bij.transform bij z c) c).2)
    (hinv : ∀ z, (Bij.inverse_and_log_det bij (Bij.transform bij z c) c).1 = z)
    (hbase : Dist.sampleAndLogProb bd k c
      = (Dist.sample bd k c, Dist.logProb bd (Dist.sample bd k c) c)) :
    Dist.sampleAndLogProb (Dist.transformed bd bij) k c
        = (Dist.sample (Dist.transformed bd bij) k c,
           Dist.logProb (Dist.transformed bd bij)
             (Dist.sample (Dist.transformed bd bij) k c) c)
    ∧ Dist.sampleAndLogProb (Dist.transformed bd bij) k c
        = ((Bij.transform_and_log_det bij (Dist.sampleAndLogProb bd k c).1 c).1,
           (Dist.sampleAndLogProb bd k c).2
             - (Bij.transform_and_log_det bij (Dist.sampleAndLogProb bd k c).1 c).2) := by
  refine ⟨?_, rfl⟩
  simp only [Dist.sampleAndLogProb, Dist.sample, Dist.logProb, hbase]
  refine Prod.ext ?_ ?_
  · exact hpair (Dist.sample bd k c)
  · rw [hinv (Dist.sample bd k c), hld (Dist.sample bd k c)]
    ring

/-- Witness for C2: all hypotheses hold for a concrete standard base
distribution and a concrete `Loc` bijection, and the conclusion follows. -/
theorem C2_sample_and_log_prob_consistency_witness :
    (∀ z, (Bij.transform_and_log_det demoOuterLoc z none).1
      = Bij.transform demoOuterLoc z none)
    ∧ (∀ z, (Bij.transform_and_log_det demoOuterLoc z none).2
      = -(Bij.inverse_and_log_det demoOuterLoc
            (Bij.transform demoOuterLoc z none) none).2)
    ∧ (∀ z, (Bij.inverse_and_log_det demoOuterLoc
        (Bij.transform demoOuterLoc z none) none).1 = z)
    ∧ Dist.sampleAndLogProb demoBase (0, 0) none
        = (Dist.sample demoBase (0, 0) none,
           Dist.logProb demoBase (Dist.sample demoBase (0, 0) none) none)
    ∧ Dist.sampleAndLogProb (Dist.transformed demoBase demoOuterLoc) (0, 0) none
        = (Dist.sample (Dist.transformed demoBase demoOuterLoc) (0, 0) none,
           Dist.logProb (Dist.transformed demoBase demoOuterLoc)
             (Dist.sample (Dist.transformed demoBase demoOuterLoc) (0, 0) none) none) := by
  refine ⟨fun z => rfl, ?_, ?_, rfl, ?_⟩
  · intro z
    simp [demoOuterLoc, locBij, Bij.transform_and_log_det, Bij.inverse_and_log_det]
  · intro z
    funext i
    simp [demoOuterLoc, locBij, Bij.transform, Bij.inverse_and_log_det]
  · exact (C2_sample_and_log_prob_consistency demoBase demoOuterLoc (0, 0) none
      (fun z => rfl)
      (fun z => by
        simp [demoOuterLoc, locBij, Bij.transform_and_log_det, Bij.inverse_and_log_det])
      (fun z => funext fun i => by
        simp [demoOuterLoc, locBij, Bij.transform, Bij.inverse_and_log_det])
      rfl).1

/-- Claim C6: sampling is deterministic as a two-run property — every
sampling entry point of the model (unbatched primitives, the key fan-out,
and the shape-level public pipeline) is a pure function of
`(key, sample_shape, condition)`: equal inputs give equal outputs, and no
other (hidden, global) state appears anywhere in the model. -/
theorem C6_two_run_determinism (d : Dist) (k k' : Key) (c c' : Option Arr)
    (s s' : Shape) (ca ca' : Option Shape) (n : Option Nat)
    (hk : k = k') (hc : c = c') (hs : s = s') (hca : ca = ca') :
    Dist.sample d k c = Dist.sample d k' c'
    ∧ Dist.sampleAndLogProb d k c = Dist.sampleAndLogProb d k' c'
    ∧ getSampleKeys n k s ca = getSampleKeys n k' s' ca'
    ∧ sampleShapeSem (Dist.shape d) (Dist.cond_shape d) k s ca
        = sampleShapeSem (Dist.shape d) (Dist.cond_shape d) k' s' ca' := by
  subst hk; subst hc; subst hs; subst hca
  exact ⟨rfl, rfl, rfl, rfl⟩

/-- Witness for C6 at a concrete distribution, key and sample shape. -/
theorem C6_two_run_determinism_witness :
    (0, 7) = ((0, 7) : Key)
    ∧ Dist.sample demoBase (0, 7) none = Dist.sample demoBase (0, 7) none
    ∧ Dist.sampleAndLogProb demoBase (0, 7) none
        = Dist.sampleAndLogProb demoBase (0, 7) none
    ∧ getSampleKeys none (0, 7) [5] none = getSampleKeys none (0, 7) [5] none
    ∧ sampleShapeSem (Dist.shape demoBase) (Dist.cond_shape demoBase) (0, 7) [5] none
        = sampleShapeSem (Dist.shape demoBase) (Dist.cond_shape demoBase) (0, 7) [5] none :=
  ⟨rfl, C6_two_run_determinism demoBase (0, 7) (0, 7) none none [5] [5] none none none
    rfl rfl rfl rfl⟩

/-- Claim C7: every entry of the result of the NaN-remapping step of the
public `log_prob` is non-NaN — a NaN produced by the vectorized `_log_prob`
batch is replaced by negative infinity before being returned. -/
theorem C7_log_prob_never_nan (lps : List JaxFloat) (l : JaxFloat)
    (h : l ∈ logProbNanRemap lps) : JaxFloat.isnan l = false := by
  simp only [logProbNanRemap, List.mem_map] at h
  obtain ⟨a, _, rfl⟩ := h
  cases a <;> simp [JaxFloat.isnan]

/-- Witness for C7: a NaN entry is remapped to negative infinity, which is
not NaN. -/
theorem C7_log_prob_never_nan_witness :
    JaxFloat.neginf ∈ logProbNanRemap [JaxFloat.nan]
    ∧ JaxFloat.isnan JaxFloat.neginf = false :=
  ⟨by simp [logProbNanRemap, JaxFloat.isnan],
   C7_log_prob_never_nan [JaxFloat.nan] JaxFloat.neginf
     (by simp [logProbNanRemap, JaxFloat.isnan])⟩

/-- Claim C10: `SpecializeCondition.__init__` reads `self.dist.cond_shape`
before the `dist` field has been assigned, so construction raises
`AttributeError` for every distribution and every condition array,
regardless of whether the condition shape matches. -/
theorem C10_specialize_condition_init_always_raises (dist : Dist)
    (condition : NdArray) (stopGrad : Bool) :
    specializeConditionInit dist condition stopGrad
      = Except.error PyError.attributeError := rfl

/-- Counterexample to claim C4: for an unconditional distribution the
excluded argument set of `_vectorize` is `{1}`, and the key argument sits at
position 0 of every sampling call site — so the key argument is NOT excluded
from broadcasting. -/
theorem C4_counterexample_key_not_excluded :
    keyArgPosition ∉ vectorizeExcluded none := by
  simp [vectorizeExcluded, keyArgPosition]

/-- Claim C4 (amended): when `cond_shape` is `None`, `_vectorize` excludes
exactly argument position 1 — the condition argument, which is then `None` —
from broadcasting consideration, while the key argument (position 0 of the
sampling call sites) is vectorized normally; when the distribution is
conditional, no argument is excluded. -/
theorem C4_amended_excluded_is_condition (s : Shape) :
    vectorizeExcluded none = {1}
    ∧ vectorizeExcluded (some s) = ∅
    ∧ conditionArgPosition ∈ vectorizeExcluded none
    ∧ keyArgPosition ∉ vectorizeExcluded none := by
  refine ⟨rfl, ?_, ?_, ?_⟩
  · simp [vectorizeExcluded]
  · simp [vectorizeExcluded, conditionArgPosition]
  · simp [vectorizeExcluded, keyArgPosition]

/-- Claim C8: constructing `Transformed(base_dist, bijection)` errors
exactly when both `cond_shape` attributes are non-`None` and unequal;
otherwise it succeeds, the result's `shape` is the base's shape, and its
`cond_shape` is the merge of the two (the unique non-`None` value, or
`None` when both are `None`). -/
theorem C8_transformed_construction (bd : Dist) (bij : Bij) :
    ((∃ e, mkTransformed bd bij = .error e) ↔
      ∃ s t, Bij.cond_shape bij = some s ∧ Dist.cond_shape bd = some t ∧ s ≠ t)
    ∧ (∀ d, mkTransformed bd bij = .ok d →
        Dist.shape d = Dist.shape bd
        ∧ Dist.cond_shape d = mergeCondShapes (Bij.cond_shape bij) (Dist.cond_shape bd)
        ∧ (Bij.cond_shape bij = none → Dist.cond_shape bd = none →
            Dist.cond_shape d = none)
        ∧ (∀ s, Bij.cond_shape bij = some s → Dist.cond_shape d = some s)
        ∧ (Bij.cond_shape bij = none → Dist.cond_shape d = Dist.cond_shape bd)) := by
  constructor
  · rcases hbd : Dist.cond_shape bd with _ | s <;>
      rcases hbij : Bij.cond_shape bij with _ | t
    · simp [mkTransformed, hbd, hbij]
    · simp [mkTransformed, hbd, hbij]
    · simp [mkTransformed, hbd, hbij]
    · by_cases hst : s = t
      · subst hst
        simp [mkTransformed, hbd, hbij]
      · simp [mkTransformed, hbd, hbij, hst]
        exact fun h => hst h.symm
  · intro d hd
    have hde : d = Dist.transformed bd bij := by
      unfold mkTransformed at hd
      split at hd
      · split at hd
        · exact (Except.ok.inj hd).symm
        · cases hd
      · exact (Except.ok.inj hd).symm
    subst hde
    refine ⟨rfl, rfl, ?_, ?_, ?_⟩
    · intro h1 h2
      simp [Dist.cond_shape, mergeCondShapes, h1, h2]
    · intro s h1
      simp [Dist.cond_shape, mergeCondShapes, h1]
    · intro h1
      simp [Dist.cond_shape, mergeCondShapes, h1]

/-- Witness for C8: for a concrete unconditional base and bijection the
construction succeeds and the resulting `cond_shape` is `None`. -/
theorem C8_transformed_construction_witness :
    mkTransformed demoBase demoOuterLoc
      = Except.ok (Dist.transformed demoBase demoOuterLoc)
    ∧ Dist.cond_shape (Dist.transformed demoBase demoOuterLoc) = none :=
  ⟨rfl,
   ((C8_transformed_construction demoBase demoOuterLoc).2
      (Dist.transformed demoBase demoOuterLoc) rfl).2.2.1 rfl rfl⟩

theorem softplus_leftInverse (y : ℝ) (hy : 0 < y) :
    softplus (softplusInv y) = y := by
  have h1 : (1 : ℝ) < Real.exp y := by
    have := Real.exp_lt_exp.mpr hy
    rwa [Real.exp_zero] at this
  have h2 : (0 : ℝ) < Real.exp y - 1 := by linarith
  rw [softplusInv, softplus, Real.exp_log h2]
  rw [show (1 : ℝ) + (Real.exp y - 1) = Real.exp y by ring]
  exact Real.log_exp y

/-- Claim C9: `Affine(loc=2.0, scale=3.0)` has effective scale 3 when the
stored raw value is read back through the positivity map, transforms 1.0 to
5.0, and reports forward log-determinant `log 3`. -/
theorem C9_affine_concrete_scenario :
    AffineParams.scale affine23 = (fun _ => (3 : ℝ))
    ∧ affineTransform affine23 arrOne = (fun _ => (5 : ℝ))
    ∧ (affineTransformAndLogDet affine23 arrOne).2 = Real.log 3 := by
  have hscale : ∀ i, AffineParams.scale affine23 i = 3 := by
    intro i
    show softplus (affine23.rawScale i) = 3
    rw [show affine23.rawScale i = softplusInv 3 from rfl]
    exact softplus_leftInverse 3 (by norm_num)
  refine ⟨funext hscale, ?_, ?_⟩
  · funext i
    calc affineTransform affine23 arrOne i
        = arrOne i * AffineParams.scale affine23 i + affine23.loc i := rfl
      _ = 1 * 3 + 2 := by rw [hscale i]; rfl
      _ = 5 := by norm_num
  · calc (affineTransformAndLogDet affine23 arrOne).2
        = ∑ i in Finset.range affine23.shape.prod,
            Real.log |AffineParams.scale affine23 i| := rfl
      _ = ∑ i in Finset.range 1, Real.log |AffineParams.scale affine23 i| := by
          rw [show affine23.shape.prod = 1 from rfl]
      _ = Real.log |AffineParams.scale affine23 0| := by rw [Finset.sum_range_one]
      _ = Real.log 3 := by rw [hscale 0, abs_of_pos (by norm_num : (0 : ℝ) < 3)]

theorem bcastRev_nil_right (l : List Nat) : bcastRev l [] = some l := by
  cases l <;> rfl

theorem bcastRev_prefix (u v : List Nat) : bcastRev (u ++ v) u = some (u ++ v) := by
  induction u with
  | nil => simpa using bcastRev_nil_right v
  | cons a t ih => simp [bcastRev, ih]

theorem broadcastShapes_append_left (s t : Shape) :
    broadcastShapes (s ++ t) t = some (s ++ t) := by
  unfold broadcastShapes
  rw [List.reverse_append, bcastRev_prefix]
  simp

theorem broadcastShapes_nil_right (s : Shape) : broadcastShapes s [] = some s := by
  unfold broadcastShapes
  rw [List.reverse_nil, bcastRev_nil_right]
  simp

theorem stripCore_append (l c : Shape) : stripCore (l ++ c) c = some l := by
  unfold stripCore
  rw [if_pos]
  · rw [List.length_append, Nat.add_sub_cancel, List.take_left]
  · constructor
    · simp
    · rw [List.length_append, Nat.add_sub_cancel, List.drop_left]

theorem getSampleKeys_unconditional (key : Key) (sshape : Shape)
    (h : 0 < sshape.prod) :
    getSampleKeys none key sshape none
      = some ⟨sshape ++ [2], jrSplit key sshape.prod⟩ := by
  have hmax : max 1 sshape.prod = sshape.prod := Nat.max_eq_right h
  simp [getSampleKeys, reshapeKeys, hmax, jrSplit_length]

theorem getSampleKeys_conditional (key : Key) (sshape lc ccs : Shape)
    (h : 0 < (sshape ++ lc).prod) :
    getSampleKeys (some ccs.length) key sshape (some (lc ++ ccs))
      = some ⟨(sshape ++ lc) ++ [2], jrSplit key (sshape ++ lc).prod⟩ := by
  have hmax : max 1 (sshape ++ lc).prod = (sshape ++ lc).prod := Nat.max_eq_right h
  simp only [getSampleKeys, List.length_append, Nat.add_sub_cancel, List.take_left,
    reshapeKeys, hmax, jrSplit_length, if_pos]

/-- Counterexample to claim C5: for a zero-sized sample shape the claimed
output shape is not produced — `max(1, prod) = 1` key cannot be reshaped to
a zero-sized batch shape, so the `sample` pipeline errors instead of
returning an array of shape `sample_shape + shape`. -/
theorem C5_counterexample_zero_batch :
    sampleShapeSem [] none (0, 0) [0] none = none
    ∧ sampleShapeSem [] none (0, 0) [0] none ≠ some ([0] ++ ([] : Shape)) := by
  decide

/-- Claim C5 (amended): whenever the combined batch shape
`sample_shape ++ leading_condition_batch_shape` has nonzero size, `sample`
returns an array of shape `sample_shape ++ leading ++ shape`, derived by
splitting the key into exactly `max(1, prod(batch_shape))` sub-keys reshaped
to the batch shape with a trailing `(2,)` axis; for batch shapes of size
zero the reshape of the single split key fails and `sample` raises. -/
theorem C5_amended_sample_shape (shape ccs lc sshape : Shape) (key : Key)
    (h : 0 < (sshape ++ lc).prod) :
    (sampleShapeSem shape none key sshape none = some (sshape ++ shape)
     ∧ getSampleKeys none key sshape none
        = some ⟨sshape ++ [2], jrSplit key (max 1 sshape.prod)⟩
     ∧ (jrSplit key (max 1 sshape.prod)).length = max 1 sshape.prod)
    ∧ (sampleShapeSem shape (some ccs) key sshape (some (lc ++ ccs))
        = some ((sshape ++ lc) ++ shape)
       ∧ getSampleKeys (some ccs.length) key sshape (some (lc ++ ccs))
          = some ⟨(sshape ++ lc) ++ [2], jrSplit key (max 1 (sshape ++ lc).prod)⟩
       ∧ (jrSplit key (max 1 (sshape ++ lc).prod)).length
          = max 1 (sshape ++ lc).prod) := by
  have hs : 0 < sshape.prod := by
    rcases Nat.eq_zero_or_pos sshape.prod with h0 | hp
    · rw [List.prod_append, h0, Nat.zero_mul] at h
      exact absurd h (by simp)
    · exact hp
  have hmaxs : max 1 sshape.prod = sshape.prod := Nat.max_eq_right hs
  have hmaxsl : max 1 (sshape ++ lc).prod = (sshape ++ lc).prod := Nat.max_eq_right h
  refine ⟨⟨?_, ?_, ?_⟩, ⟨?_, ?_, ?_⟩⟩
  · show sampleShapeSem shape none key sshape none = some (sshape ++ shape)
    simp only [sampleShapeSem]
    rw [getSampleKeys_unconditional key sshape hs]
    simp only [vectorizeCallShape, stripAll, vectorizeInShapes, stripCore_append,
      broadcastMany, broadcastShapes_nil_right]
  · rw [hmaxs]; exact getSampleKeys_unconditional key sshape hs
  · rw [jrSplit_length]
  · show sampleShapeSem shape (some ccs) key sshape (some (lc ++ ccs))
      = some ((sshape ++ lc) ++ shape)
    simp only [sampleShapeSem]
    rw [getSampleKeys_conditional key sshape lc ccs h]
    simp only [vectorizeCallShape, stripAll, vectorizeInShapes, stripCore_append,
      broadcastMany, broadcastShapes_nil_right, broadcastShapes_append_left]
  · rw [hmaxsl]; exact getSampleKeys_conditional key sshape lc ccs h
  · rw [jrSplit_length]

/-- Witness for C5 (amended) at concrete shapes with positive batch size. -/
theorem C5_amended_sample_shape_witness :
    0 < (([5] ++ [4] : Shape)).prod
    ∧ sampleShapeSem [2] none (1, 2) [5] none = some [5, 2]
    ∧ sampleShapeSem [2] (some [3]) (1, 2) [5] (some [4, 3]) = some [5, 4, 2] :=
  ⟨by decide,
   (C5_amended_sample_shape [2] [3] [4] [5] (1, 2) (by decide)).1.1,
   (C5_amended_sample_shape [2] [3] [4] [5] (1, 2) (by decide)).2.1⟩

theorem transformList_append (l1 l2 : List Bij) (x : Arr) (c : Option Arr) :
    transformList (l1 ++ l2) x c = transformList l2 (transformList l1 x c) c := by
  induction l1 generalizing x with
  | nil => rfl
  | cons b t ih => exact ih (Bij.transform b x c)

theorem inverseAndLogDetList_append (l1 l2 : List Bij) (y : Arr) (c : Option Arr) :
    inverseAndLogDetList (l1 ++ l2) y c
      = ((inverseAndLogDetList l1 (inverseAndLogDetList l2 y c).1 c).1,
         (inverseAndLogDetList l2 y c).2
           + (inverseAndLogDetList l1 (inverseAndLogDetList l2 y c).1 c).2) := by
  induction l1 with
  | nil => simp [inverseAndLogDetList]
  | cons b t ih =>
    show ((Bij.inverse_and_log_det b (inverseAndLogDetList (t ++ l2) y c).1 c).1,
          (inverseAndLogDetList (t ++ l2) y c).2
            + (Bij.inverse_and_log_det b (inverseAndLogDetList (t ++ l2) y c).1 c).2) = _
    rw [ih]
    dsimp only
    refine Prod.ext rfl ?_
    rw [show inverseAndLogDetList (b :: t) (inverseAndLogDetList l2 y c).1 c
          = ((Bij.inverse_and_log_det b
                (inverseAndLogDetList t (inverseAndLogDetList l2 y c).1 c).1 c).1,
             (inverseAndLogDetList t (inverseAndLogDetList l2 y c).1 c).2
               + (Bij.inverse_and_log_det b
                    (inverseAndLogDetList t (inverseAndLogDetList l2 y c).1 c).1 c).2)
        from rfl]
    dsimp only
    ring

theorem unwind_residual_not_transformed (d : Dist) :
    Dist.isTransformed (unwind d).2 = false := by
  induction d with
  | base sh cs lp sp slp => rfl
  | transformed bd bij ih => simpa [unwind] using ih

theorem logProb_unwind (d : Dist) (x : Arr) (c : Option Arr) :
    Dist.logProb d x c
      = Dist.logProb (unwind d).2
          (inverseAndLogDetList ((unwind d).1.reverse) x c).1 c
        + (inverseAndLogDetList ((unwind d).1.reverse) x c).2 := by
  induction d generalizing x with
  | base sh cs lp sp slp => simp [unwind, inverseAndLogDetList, Dist.logProb]
  | transformed bd bij ih =>
    simp only [Dist.logProb, unwind, List.reverse_cons]
    rw [inverseAndLogDetList_append]
    rw [show inverseAndLogDetList [bij] x c
          = ((Bij.inverse_and_log_det bij x c).1,
             0 + (Bij.inverse_and_log_det bij x c).2) from rfl]
    rw [ih]
    ring

theorem sample_unwind (d : Dist) (k : Key) (c : Option Arr) :
    Dist.sample d k c
      = transformList ((unwind d).1.reverse) (Dist.sample (unwind d).2 k c) c := by
  induction d with
  | base sh cs lp sp slp => rfl
  | transformed bd bij ih =>
    simp only [Dist.sample, unwind, List.reverse_cons]
    rw [transformList_append, ← ih]
    rfl

theorem transformList_splice (l : List Bij) (x : Arr) (c : Option Arr) :
    transformList (splice l) x c = transformList l x c := by
  induction l generalizing x with
  | nil => rfl
  | cons b t ih =>
    cases b with
    | prim sh cs tf tfld inv invld => simp only [splice, transformList, ih]
    | chain inner =>
      simp only [splice]
      rw [transformList_append, ih]
      simp only [transformList, Bij.transform]

theorem inverseAndLogDetList_splice (l : List Bij) (y : Arr) (c : Option Arr) :
    inverseAndLogDetList (splice l) y c = inverseAndLogDetList l y c := by
  induction l with
  | nil => rfl
  | cons b t ih =>
    cases b with
    | prim sh cs tf tfld inv invld => simp only [splice, inverseAndLogDetList, ih]
    | chain inner =>
      simp only [splice]
      rw [inverseAndLogDetList_append, ih]
      simp only [inverseAndLogDetList, Bij.inverse_and_log_det]

/-- Claim C3: merging a nested transformed distribution yields a
`Transformed` whose base is the innermost non-transformed distribution and
whose bijection is the flattened chain of the collected bijections in
inner-to-outer order, with unchanged `_log_prob` and `_sample` semantics. -/
theorem C3_merge_transforms (bd : Dist) (bij : Bij) (x : Arr) (k : Key)
    (c : Option Arr) (h : Dist.isTransformed bd = true) :
    mergeTransforms (Dist.transformed bd bij)
        = Dist.transformed (unwind (Dist.transformed bd bij)).2
            (mergeChains (Bij.chain ((unwind (Dist.transformed bd bij)).1.reverse)))
    ∧ Dist.isTransformed (unwind (Dist.transformed bd bij)).2 = false
    ∧ Dist.logProb (mergeTransforms (Dist.transformed bd bij)) x c
        = Dist.logProb (Dist.transformed bd bij) x c
    ∧ Dist.sample (mergeTransforms (Dist.transformed bd bij)) k c
        = Dist.sample (Dist.transformed bd bij) k c := by
  cases bd with
  | base sh cs lp sp slp => simp [Dist.isTransformed] at h
  | transformed bd' bij' =>
    refine ⟨rfl, unwind_residual_not_transformed _, ?_, ?_⟩
    · rw [show mergeTransforms (Dist.transformed (Dist.transformed bd' bij') bij)
            = Dist.transformed
                (unwind (Dist.transformed (Dist.transformed bd' bij') bij)).2
                (Bij.chain (splice
                  ((unwind (Dist.transformed (Dist.transformed bd' bij') bij)).1.reverse)))
          from rfl]
      rw [show ∀ u bj, Dist.logProb (Dist.transformed u bj) x c
            = Dist.logProb u (Bij.inverse_and_log_det bj x c).1 c
              + (Bij.inverse_and_log_det bj x c).2 from fun u bj => rfl]
      rw [show ∀ l, Bij.inverse_and_log_det (Bij.chain l) x c
            = inverseAndLogDetList l x c from fun l => rfl]
      rw [inverseAndLogDetList_splice]
      rw [← logProb_unwind]
    · rw [show mergeTransforms (Dist.transformed (Dist.transformed bd' bij') bij)
            = Dist.transformed
                (unwind (Dist.transformed (Dist.transformed bd' bij') bij)).2
                (Bij.chain (splice
                  ((unwind (Dist.transformed (Dist.transformed bd' bij') bij)).1.reverse)))
          from rfl]
      rw [show ∀ u bj, Dist.sample (Dist.transformed u bj) k c
            = Bij.transform bj (Dist.sample u k c) c from fun u bj => rfl]
      rw [show ∀ l z, Bij.transform (Bij.chain l) z c
            = transformList l z c from fun l z => rfl]
      rw [transformList_splice]
      rw [← sample_unwind]

/-- Witness for C3 at a concrete doubly nested distribution built from a
standard base and two `Loc` bijections. -/
theorem C3_merge_transforms_witness :
    Dist.isTransformed demoNested = true
    ∧ (mergeTransforms (Dist.transformed demoNested demoOuterLoc)
        = Dist.transformed (unwind (Dist.transformed demoNested demoOuterLoc)).2
            (mergeChains
              (Bij.chain ((unwind (Dist.transformed demoNested demoOuterLoc)).1.reverse)))
       ∧ Dist.isTransformed (unwind (Dist.transformed demoNested demoOuterLoc)).2 = false
       ∧ Dist.logProb (mergeTransforms (Dist.transformed demoNested demoOuterLoc))
            arrOne none
          = Dist.logProb (Dist.transformed demoNested demoOuterLoc) arrOne none
       ∧ Dist.sample (mergeTransforms (Dist.transformed demoNested demoOuterLoc))
            (0, 0) none
          = Dist.sample (Dist.transformed demoNested demoOuterLoc) (0, 0) none) :=
  ⟨rfl, C3_merge_transforms demoNested demoOuterLoc arrOne (0, 0) none rfl⟩

end Flowjax
